import Mathlib

/-!
# Verification of `multi-chain-balance-diff` against its specification

Shallow embedding of the chain-adapter / balance-diff core of the
`multi-chain-balance-diff` CLI (JavaScript).  Each definition below is a
direct translation of a function of the source tree:

* `src/adapters/baseAdapter.js`   — `BaseAdapter.getNativeBalanceDiff`
* `src/adapters/evmAdapter.js`    — `EVMAdapter.getTokenBalances`
* `src/adapters/solanaAdapter.js` — `SolanaAdapter.formatBalance`,
  `SolanaAdapter.getNativeBalance`, `SolanaAdapter.getTokenBalances`
* `src/index.js`                  — `formatBigInt`, `parseThreshold`,
  `checkThreshold`, `checkPercentageThreshold`, `buildJsonOutput`
  (`diffSign` field), `watchMode` (poll loop, exit codes, SIGINT handler),
  the multi-address batch path of `main`, `fetchAddressData`.

JavaScript `BigInt` values are embedded as `ℤ` (or `ℕ` for raw balances,
which are non-negative on chain); block heights, held in JS `Number`s that
stay far below `2^53` in every reachable state, are embedded as `ℤ`.
RPC calls are passed in as explicit oracle functions; a call that may throw
is an `Except`/`Option` value.
-/

namespace MCBD

/-! ## Balance snapshots and the diff record (`baseAdapter.js`) -/

/-- Result of `getNativeBalance`: `{ raw, formatted, decimals }`. -/
structure BalanceSnapshot where
  raw : ℤ
  formatted : String
  decimals : ℕ
  deriving Repr, DecidableEq

/-- Result of `BaseAdapter.getNativeBalanceDiff`:
`{ current, previous, diff, currentBlock, previousBlock }`. -/
structure BalanceDiffRecord where
  current : BalanceSnapshot
  previous : BalanceSnapshot
  diff : ℤ
  currentBlock : ℤ
  previousBlock : ℤ
  deriving Repr, DecidableEq

/-- Embedding of `BaseAdapter.getNativeBalanceDiff(address, blocksBack)`
(`src/adapters/baseAdapter.js`, lines 64–80).  The two RPC calls are
abstracted into oracles: `getCurrentBlock` is the height returned by the
first call, and `getNativeBalance h` is the snapshot the adapter returns
for block tag `h`.  The JS body is

```
const currentBlock = await this.getCurrentBlock();
const previousBlock = Math.max(0, currentBlock - blocksBack);
const [current, previous] = await Promise.all([
  this.getNativeBalance(address, currentBlock),
  this.getNativeBalance(address, previousBlock)]);
return { current, previous, diff: current.raw - previous.raw,
         currentBlock, previousBlock };
```
-/
def getNativeBalanceDiff (getCurrentBlock : ℤ) (getNativeBalance : ℤ → BalanceSnapshot)
    (blocksBack : ℤ) : BalanceDiffRecord :=
  let currentBlock := getCurrentBlock
  let previousBlock := max 0 (currentBlock - blocksBack)
  let current := getNativeBalance currentBlock
  let previous := getNativeBalance previousBlock
  { current := current
    previous := previous
    diff := current.raw - previous.raw
    currentBlock := currentBlock
    previousBlock := previousBlock }

/-- The `diffSign` field of the `native` block of `buildJsonOutput`
(`src/index.js`, line 559):
`diffSign: balanceDiff.diff >= 0n ? 'positive' : 'negative'`. -/
def diffSign (diff : ℤ) : String :=
  if diff ≥ 0 then "positive" else "negative"

end MCBD

namespace MCBD

/-! ## Exact fixed-point formatting

`SolanaAdapter.formatBalance` (`src/adapters/solanaAdapter.js`, lines
258–273) and `formatBigInt` (`src/index.js`, lines 370–383) both perform
exact big-integer long division:

```
const divisor = BigInt(10 ** decimals);
const whole = raw / divisor;
const fraction = raw % divisor;
if (fraction === 0n) return whole.toString();
const fractionStr = fraction.toString().padStart(decimals, '0');
const trimmed = fractionStr.replace(/0+$/, '');        // solana adapter
const trimmed = fractionStr.replace(/0+$/, '').slice(0, 6); // formatBigInt
return `${whole}.${trimmed}`;
```

`BigInt(10 ** decimals)` computes `10 ** decimals` in IEEE-754 double
arithmetic first; the result equals the true power exactly whenever
`5 ^ decimals < 2 ^ 53`, i.e. for every `decimals ≤ 22` (all configured
networks use 6, 9 or 18).  The embedding uses the exact power and the
theorems about it are stated for `decimals ≤ 22`.

Decimal digit strings are embedded through `Nat.digits 10`, which is the
definition of what JS `BigInt.prototype.toString()` prints. -/

/-- Decimal digit character for a digit value `< 10` (as produced by
`BigInt.prototype.toString()`). -/
def digitChar (d : ℕ) : Char := Char.ofNat (48 + d)

/-- Numeric value of a decimal digit character. -/
def charDigit (c : Char) : ℕ := c.toNat - 48

/-- Least-significant-first decimal digits of `n`, by fuel recursion
(`fuel ≥ n` suffices); agrees with `Nat.digits 10` and reduces by `rfl`
on concrete inputs. -/
def natDecDigitsAux : ℕ → ℕ → List ℕ
  | 0, _ => []
  | fuel + 1, n => if n = 0 then [] else n % 10 :: natDecDigitsAux fuel (n / 10)

/-- Most-significant-first decimal digits of `n`, with `0` printed as
the single digit `0` — exactly the digit sequence of
`BigInt.prototype.toString()`. -/
def natDecDigits (n : ℕ) : List ℕ :=
  if n = 0 then [0] else (natDecDigitsAux n n).reverse

/-- Embedding of `n.toString()` for a non-negative JS `BigInt`. -/
def bigintToString (n : ℕ) : String :=
  ⟨(natDecDigits n).map digitChar⟩

/-- Embedding of `String.prototype.padStart(len, '0')` on a digit list
(most-significant first). -/
def padStartZeros (l : List ℕ) (len : ℕ) : List ℕ :=
  List.replicate (len - l.length) 0 ++ l

/-- Embedding of `.replace(/0+$/, '')`: drop trailing zero digits. -/
def trimTrailingZeros (l : List ℕ) : List ℕ :=
  (l.reverse.dropWhile (· = 0)).reverse

/-- Embedding of `SolanaAdapter.formatBalance(raw, decimals)` (exact long division,
trailing fractional zeros trimmed, full precision kept).  Stated on the
digit level; `solanaFormatBalance` packages the digits into the string the
adapter returns. -/
def solanaFormatDigits (raw decimals : ℕ) : List ℕ × List ℕ :=
  let divisor := 10 ^ decimals
  let whole := raw / divisor
  let fraction := raw % divisor
  (natDecDigits whole, trimTrailingZeros (padStartZeros (natDecDigits fraction) decimals))

/-- Embedding of `SolanaAdapter.formatBalance(raw, decimals)`
(`src/adapters/solanaAdapter.js`, lines 258–273). -/
def solanaFormatBalance (raw decimals : ℕ) : String :=
  let divisor := 10 ^ decimals
  let fraction := raw % divisor
  if fraction = 0 then bigintToString (raw / divisor)
  else
    let p := solanaFormatDigits raw decimals
    ⟨p.1.map digitChar ++ '.' :: p.2.map digitChar⟩

/-- Embedding of `formatBigInt(value, decimals)` (`src/index.js`, lines 370–383) for a
non-negative value: identical to the Solana formatter except that the
trimmed fractional digit string is additionally cut to its first six
characters by `.slice(0, 6)` — a truncation, not a rounding. -/
def formatBigInt (value decimals : ℕ) : String :=
  let divisor := 10 ^ decimals
  let fraction := value % divisor
  if fraction = 0 then bigintToString (value / divisor)
  else
    let p := solanaFormatDigits value decimals
    ⟨p.1.map digitChar ++ '.' :: (p.2.take 6).map digitChar⟩

/-- Is `c` a decimal digit character? -/
def isDigitChar (c : Char) : Bool := 48 ≤ c.toNat ∧ c.toNat ≤ 57

/-- Numeric value of a most-significant-first string of digit
characters. -/
def charsToNat (l : List Char) : ℕ := Nat.ofDigits 10 ((l.map charDigit).reverse)

/-- Re-parse a plain fixed-point decimal string (`whole` or
`whole.fraction`, decimal digits only) back into the raw integer at the
given precision: the fraction is padded on the right to `decimals` digits.
Returns `none` if the string is not of that shape (in particular for
scientific notation, signs, or more than `decimals` fractional digits).
This is the spec's "re-parsing as a fixed-point decimal", not code of the
repository. -/
def parseFixedPoint (s : String) (decimals : ℕ) : Option ℕ :=
  let l := s.toList
  let w := l.takeWhile fun c => c ≠ '.'
  match l.dropWhile fun c => c ≠ '.' with
  | [] =>
      if w ≠ [] ∧ w.all isDigitChar then some (charsToNat w * 10 ^ decimals)
      else none
  | _ :: f =>
      if w ≠ [] ∧ f ≠ [] ∧ f.length ≤ decimals ∧ w.all isDigitChar ∧ f.all isDigitChar then
        some (charsToNat w * 10 ^ decimals + charsToNat f * 10 ^ (decimals - f.length))
      else none

end MCBD

namespace MCBD

/-! ## Threshold parsing and evaluation (`src/index.js`) -/

/-- Comparison operators accepted by `parseThreshold`. -/
inductive CmpOp where
  | gt | ge | lt | le
  deriving Repr, DecidableEq

/-- The operator's source text. -/
def CmpOp.text : CmpOp → String
  | .gt => ">"
  | .ge => ">="
  | .lt => "<"
  | .le => "<="

/-- A parsed threshold `{ operator, value }`.  The source stores
`value = parseFloat(numeric-part)`; since `parseFloat` is a function of the
matched numeric substring, the embedding keeps that substring itself, which
is finer-grained (equal substrings give equal floats). -/
structure Threshold where
  operator : CmpOp
  value : String
  deriving Repr, DecidableEq

/-- Does the character list match `-?\d+\.?\d*` (anchored)?  This is the
second capture group of the `parseThreshold` regex. -/
def isSignedDecimal (l : List Char) : Bool :=
  let afterSign := if l.head? = some '-' then l.tail else l
  let intPart := afterSign.takeWhile isDigitChar
  match afterSign.dropWhile isDigitChar with
  | [] => intPart ≠ []
  | '.' :: fracPart => intPart ≠ [] ∧ fracPart.all isDigitChar
  | _ => false

/-- Embedding of `parseThreshold(thresholdStr)` (`src/index.js`, lines 401–415):

```
if (!thresholdStr) return null;
const match = thresholdStr.match(/^(>=?|<=?)?(-?\d+\.?\d*)$/);
if (!match) return null;
const operator = match[1] || '>';
const value = parseFloat(match[2]);
if (isNaN(value)) return null;
return { operator, value };
```

The optional operator group is matched greedily (`>=` before `>`), and a
numeric part matching the anchored `-?\d+\.?\d*` never begins with `=`,
so stripping the longest leading operator — `stripOperator` below — is
exactly what the regex's `(>=?|<=?)?` group does.  `parseFloat` cannot
return `NaN` on a match of that pattern. -/
def stripOperator : List Char → CmpOp × List Char
  | '>' :: '=' :: r => (.ge, r)
  | '>' :: r => (.gt, r)
  | '<' :: '=' :: r => (.le, r)
  | '<' :: r => (.lt, r)
  | r => (.gt, r)

/-- See the comment on `stripOperator` above: strip the operator group,
then require the remainder to match the numeric group exactly. -/
def parseThreshold (s : String) : Option Threshold :=
  if s = "" then none
  else
    let p := stripOperator s.toList
    if isSignedDecimal p.2 then some ⟨p.1, ⟨p.2⟩⟩ else none

/-- Embedding of `bigintToNumber(raw, decimals)` (`src/index.js`, lines 423–428)
converts a raw bigint to a JS number `raw / 10^decimals`.  The embedding
uses the exact rational value; the only property proved about the
functions below (the `previousRaw === 0n` guard) does not depend on
floating-point rounding. -/
def bigintToNumber (raw : ℤ) (decimals : ℕ) : ℚ :=
  (raw : ℚ) / 10 ^ decimals

/-- Numeric value of a threshold in the embedding (stand-in for the stored
`parseFloat` result; an explicit rational keeps `checkThreshold`
executable). -/
structure ThresholdValue where
  operator : CmpOp
  value : ℚ
  deriving Repr, DecidableEq

/-- Apply a comparison operator. -/
def CmpOp.apply (op : CmpOp) (x y : ℚ) : Bool :=
  match op with
  | .gt => x > y
  | .ge => x ≥ y
  | .lt => x < y
  | .le => x ≤ y

/-- Embedding of `checkThreshold(diffRaw, decimals, threshold)` (`src/index.js`,
lines 437–449). -/
def checkThreshold (diffRaw : ℤ) (decimals : ℕ) (threshold : Option ThresholdValue) : Bool :=
  match threshold with
  | none => false
  | some t => t.operator.apply (bigintToNumber diffRaw decimals) t.value

/-- Embedding of `checkPercentageThreshold(diffRaw, previousRaw, decimals, threshold)`
(`src/index.js`, lines 459–477):

```
if (!threshold) return false;
if (previousRaw === 0n) return false; // Avoid division by zero
const diffValue = bigintToNumber(diffRaw, decimals);
const previousValue = bigintToNumber(previousRaw, decimals);
if (previousValue === 0) return false;
const percentChange = (diffValue / previousValue) * 100;
switch (threshold.operator) { ... }
```
-/
def checkPercentageThreshold (diffRaw previousRaw : ℤ) (decimals : ℕ)
    (threshold : Option ThresholdValue) : Bool :=
  match threshold with
  | none => false
  | some t =>
      if previousRaw = 0 then false
      else
        let diffValue := bigintToNumber diffRaw decimals
        let previousValue := bigintToNumber previousRaw decimals
        if previousValue = 0 then false
        else t.operator.apply (diffValue / previousValue * 100) t.value

end MCBD

namespace MCBD

/-! ## Token balances (`evmAdapter.js` / `solanaAdapter.js`) -/

/-- A configured token (`networks.js` entry): `{ symbol, address, decimals }`. -/
structure TokenConfig where
  symbol : String
  address : String
  decimals : ℕ
  deriving Repr, DecidableEq

/-- One entry of an adapter's token-balance result:
`{ symbol, address, raw, formatted, decimals }`. -/
structure TokenBalance where
  symbol : String
  address : String
  raw : ℤ
  formatted : String
  decimals : ℕ
  deriving Repr, DecidableEq

/-- Embedding of `EVMAdapter._getTokenBalance(address, tokenConfig)`
(`src/adapters/evmAdapter.js`, lines 157–178): a `balanceOf` contract call
wrapped in `try/catch`; a throw yields `null`.  The call is abstracted as
the oracle `fetch : TokenConfig → Option ℤ` (`none` = the lookup threw). -/
def getTokenBalance (fetch : TokenConfig → Option ℤ) (fmt : ℤ → ℕ → String)
    (t : TokenConfig) : Option TokenBalance :=
  (fetch t).map fun raw =>
    { symbol := t.symbol
      address := t.address
      raw := raw
      formatted := fmt raw t.decimals
      decimals := t.decimals }

/-- Embedding of `EVMAdapter.getTokenBalances(address, tokens)`
(`src/adapters/evmAdapter.js`, lines 146–155):

```
const results = await Promise.all(tokens.map(t => this._getTokenBalance(address, t)));
return results.filter(result => result !== null && result.raw > 0n);
```

The `filterMap` below is the `map` followed by the non-`null` /
`raw > 0n` filter, with the non-`null` results unwrapped. -/
def getTokenBalances (fetch : TokenConfig → Option ℤ) (fmt : ℤ → ℕ → String)
    (tokens : List TokenConfig) : List TokenBalance :=
  (tokens.map (getTokenBalance fetch fmt)).filterMap fun r =>
    match r with
    | some tb => if tb.raw > 0 then some tb else none
    | none => none

/-- One parsed SPL token account as seen by
`SolanaAdapter.getTokenBalances`: mint address and
`tokenAmount = { amount, decimals, uiAmountString }`. -/
structure SplTokenAccount where
  mint : String
  amount : ℤ
  decimals : ℕ
  uiAmountString : String
  deriving Repr, DecidableEq

/-- Embedding of `SolanaAdapter.getTokenBalances(address, tokens)`
(`src/adapters/solanaAdapter.js`, lines 197–247): the wallet's parsed
token accounts are fetched in one RPC call (`none` = the call threw, in
which case the `catch` returns `[]`); every account whose mint is
configured and whose raw amount is `> 0n` produces one entry. -/
def solanaAccountEntry (tokens : List TokenConfig) (a : SplTokenAccount) :
    Option TokenBalance :=
  match tokens.find? fun t => t.address = a.mint with
  | some tokenConfig =>
      if a.amount > 0 then
        some { symbol := tokenConfig.symbol
               address := a.mint
               raw := a.amount
               formatted := a.uiAmountString
               decimals := a.decimals }
      else none
  | none => none

/-- The account loop of `SolanaAdapter.getTokenBalances`. -/
def solanaGetTokenBalances (accounts : Option (List SplTokenAccount))
    (tokens : List TokenConfig) : List TokenBalance :=
  match accounts with
  | none => []
  | some accs => accs.filterMap (solanaAccountEntry tokens)

/-! ## Solana historical-balance fallback (`solanaAdapter.js`) -/

/-- Block tag passed to `getNativeBalance`. -/
inductive SlotTag where
  | latest
  | slot (s : ℤ)
  deriving Repr, DecidableEq

/-- Embedding of `SolanaAdapter.getNativeBalance(address, slotTag)`
(`src/adapters/solanaAdapter.js`, lines 169–195).  The two RPC shapes are
oracles: `getBalanceAt s` is the node's answer to the historical query
`getBalance(pubkey, { minContextSlot: s })` (`Except` = it may be
rejected), `getBalanceLatest` the answer to the plain `getBalance(pubkey)`
call.

```
if (slotTag === 'latest') { raw = await this.conn.getBalance(pubkey); }
else {
  try { raw = await this.conn.getBalance(pubkey, { minContextSlot: slotTag }); }
  catch (error) { raw = await this.conn.getBalance(pubkey); }  // fallback
}
return { raw: BigInt(raw), formatted: this.formatBalance(BigInt(raw), 9), decimals: 9 };
```
-/
def solanaGetNativeBalance (getBalanceAt : ℤ → Except String ℕ)
    (getBalanceLatest : Except String ℕ) (slotTag : SlotTag) :
    Except String BalanceSnapshot :=
  let wrap : ℕ → BalanceSnapshot := fun raw =>
    { raw := (raw : ℤ), formatted := solanaFormatBalance raw 9, decimals := 9 }
  match slotTag with
  | .latest => getBalanceLatest.map wrap
  | .slot s =>
      match getBalanceAt s with
      | .ok raw => .ok (wrap raw)
      | .error _ => getBalanceLatest.map wrap

end MCBD

namespace MCBD

/-! ## Batch mode (`src/index.js`: `fetchAddressData` and the
multi-address path of `main`) -/

/-- Per-address entry of the batch result: `{ address, balanceDiff,
tokenBalances }` on success, `{ address, error }` on failure. -/
inductive AddressResult where
  | ok (address : String) (balanceDiff : BalanceDiffRecord) (tokenBalances : List TokenBalance)
  | err (address : String) (error : String)
  deriving Repr, DecidableEq

/-- The address an entry belongs to. -/
def AddressResult.address : AddressResult → String
  | .ok a _ _ => a
  | .err a _ => a

/-- Is the entry an error entry? -/
def AddressResult.isError : AddressResult → Bool
  | .ok _ _ _ => false
  | .err _ _ => true

/-- Embedding of `fetchAddressData(adapter, networkConfig, address, blocksBack,
checkTokens)` (`src/index.js`, lines 924–944).  The adapter calls are
oracles: `isValidAddress` is the pure syntactic check, and
`fetchDiff a` / `fetchTokens a` are the outcomes of the two awaited calls
for address `a` (`Except.error` = the promise rejected; the surrounding
`try/catch` turns a rejection into an `{ address, error }` entry). -/
def fetchAddressData (isValidAddress : String → Bool)
    (fetchDiff : String → Except String BalanceDiffRecord)
    (fetchTokens : String → Except String (List TokenBalance))
    (checkTokens : Bool) (chainType : String) (address : String) : AddressResult :=
  if !isValidAddress address then
    .err address ("Invalid " ++ chainType.toUpper ++ " address")
  else
    match fetchDiff address with
    | .error e => .err address e
    | .ok balanceDiff =>
        if checkTokens then
          match fetchTokens address with
          | .error e => .err address e
          | .ok tokenBalances => .ok address balanceDiff tokenBalances
        else .ok address balanceDiff []

/-- Outcome of the multi-address path of `main`. -/
inductive BatchOutcome where
  /-- `process.exit(1)` from the pre-validation loop: no per-address
  results were produced. -/
  | invalidAddressExit (exitCode : ℕ)
  /-- The batch completed: one entry per input address, and the final
  `process.exit` code. -/
  | completed (results : List AddressResult) (exitCode : ℕ)
  deriving Repr, DecidableEq

/-- Alert evaluation for one batch entry, as in `main`
(`src/index.js`, lines 1051–1066): errored entries are skipped
(`if (r.error) continue`), otherwise the absolute and the percentage
threshold are ORed. -/
def entryTriggersAlert (decimals : ℕ) (threshold pctThreshold : Option ThresholdValue) :
    AddressResult → Bool
  | .err _ _ => false
  | .ok _ balanceDiff _ =>
      checkThreshold balanceDiff.diff decimals threshold ||
      checkPercentageThreshold balanceDiff.diff balanceDiff.previous.raw decimals pctThreshold

/-- The multi-address path of `main` (`src/index.js`, lines 989–1005 and
1037–1109), with the RPC layer abstracted as in `fetchAddressData`:

1. every address is validated before connecting — the first invalid one
   aborts the whole run with `process.exit(1)` and no results
   (lines 989–1005);
2. otherwise every address is fetched independently
   (`Promise.all(addresses.map(addr => fetchAddressData(...)))`);
3. `anyAlertTriggered` scans the non-errored entries;
4. `process.exit(anyAlertTriggered ? EXIT_DIFF : EXIT_OK)` — fetch
   errors do not influence the exit code. -/
def mainBatch (isValidAddress : String → Bool)
    (fetchDiff : String → Except String BalanceDiffRecord)
    (fetchTokens : String → Except String (List TokenBalance))
    (checkTokens : Bool) (chainType : String) (decimals : ℕ)
    (threshold pctThreshold : Option ThresholdValue)
    (addresses : List String) : BatchOutcome :=
  if addresses.any fun a => !isValidAddress a then
    .invalidAddressExit 1
  else
    let results := addresses.map
      (fetchAddressData isValidAddress fetchDiff fetchTokens checkTokens chainType)
    let anyAlertTriggered := results.any (entryTriggersAlert decimals threshold pctThreshold)
    .completed results (if anyAlertTriggered then 1 else 0)

end MCBD

namespace MCBD

/-! ## Watch mode (`src/index.js`, `watchMode`, lines 745–918)

The polling loop is embedded as a state machine driven by a list of
events.  Each `tick` invocation of the source corresponds to one
`WatchEvent.poll` event carrying the outcome of
`adapter.getNativeBalanceDiff` for that tick (`failure` = the promise
rejected, with its `isRpcError` classification); a delivery of `SIGINT`
at a tick boundary is a `WatchEvent.sigint` event.  The loop's mutable
variables `pollCount`, `exitCode`, `shouldExit` form the state. -/

/-- Exit codes (`src/index.js`, lines 198–201). -/
def EXIT_OK : ℕ := 0
def EXIT_DIFF : ℕ := 1
def EXIT_RPC_ERROR : ℕ := 2
def EXIT_SIGINT : ℕ := 130

/-- Configuration of `watchMode` derived from the CLI options.
`maxPolls = none` embeds `Infinity` (no `--count`); `maxPolls = some n`
embeds `parseInt(options.count, 10)`, which may be zero or negative since
the source does not validate it. -/
structure WatchConfig where
  maxPolls : Option ℤ
  exitOnError : Bool
  exitOnDiff : Bool
  threshold : Option ThresholdValue
  pctThreshold : Option ThresholdValue
  decimals : ℕ

/-- Outcome of one tick's `adapter.getNativeBalanceDiff` call. -/
inductive PollOutcome where
  | success (balanceDiff : BalanceDiffRecord)
  | failure (isRpcError : Bool)
  deriving Repr, DecidableEq

/-- An event seen by the watch loop. -/
inductive WatchEvent where
  | poll (outcome : PollOutcome)
  | sigint
  deriving Repr, DecidableEq

/-- The loop's mutable variables. -/
structure WatchState where
  pollCount : ℕ
  exitCode : ℕ
  shouldExit : Bool
  deriving Repr, DecidableEq

/-- Embedding of `let pollCount = 0; let shouldExit = false; let exitCode = EXIT_OK;`
(`src/index.js`, lines 753–756). -/
def initialWatchState : WatchState :=
  { pollCount := 0, exitCode := EXIT_OK, shouldExit := false }

/-- Embedding of `alertTriggered` of one successful tick
(`src/index.js`, lines 798–813): absolute OR percentage threshold. -/
def pollAlert (cfg : WatchConfig) (balanceDiff : BalanceDiffRecord) : Bool :=
  checkThreshold balanceDiff.diff cfg.decimals cfg.threshold ||
  checkPercentageThreshold balanceDiff.diff balanceDiff.previous.raw cfg.decimals
    cfg.pctThreshold

/-- The body of `tick` (`src/index.js`, lines 792–887), up to the final
`shouldExit` check:

* `pollCount++`;
* on success: if `alertTriggered && exitOnDiff` then
  `shouldExit = true; exitCode = EXIT_DIFF`; if `alertTriggered` then
  `exitCode = EXIT_DIFF` (sticky across later clean polls);
* on failure: if `exitOnError && isRpcError(error)` then
  `shouldExit = true; exitCode = EXIT_RPC_ERROR`;
* finally `if (pollCount >= maxPolls) shouldExit = true`
  (`maxPolls = Infinity` when `--count` is absent, so the comparison is
  then never true). -/
def watchTick (cfg : WatchConfig) (st : WatchState) (o : PollOutcome) : WatchState :=
  let pollCount := st.pollCount + 1
  let st1 : WatchState :=
    match o with
    | .success balanceDiff =>
        let alertTriggered := pollAlert cfg balanceDiff
        let shouldExit := if alertTriggered && cfg.exitOnDiff then true else st.shouldExit
        let exitCode := if alertTriggered then EXIT_DIFF else st.exitCode
        { pollCount := pollCount, exitCode := exitCode, shouldExit := shouldExit }
    | .failure isRpcError =>
        if cfg.exitOnError && isRpcError then
          { pollCount := pollCount, exitCode := EXIT_RPC_ERROR, shouldExit := true }
        else
          { pollCount := pollCount, exitCode := st.exitCode, shouldExit := st.shouldExit }
  match cfg.maxPolls with
  | none => st1
  | some n => if (pollCount : ℤ) ≥ n then { st1 with shouldExit := true } else st1

/-- The `watch_end` summary: `{ polls: pollCount, exitCode }`
(`src/index.js`, lines 873–885 and 900–913). -/
structure WatchEnd where
  polls : ℕ
  exitCode : ℕ
  deriving Repr, DecidableEq

/-- The watch loop: events are consumed in order.  A `poll` event runs
`watchTick`; if the tick set `shouldExit`, the loop clears the timer,
emits the `watch_end` record and calls `process.exit(exitCode)`.  A
`sigint` event runs the `process.on('SIGINT', ...)` handler
(`src/index.js`, lines 898–914), which clears the timer, emits a
`watch_end` with the current `pollCount` and calls
`process.exit(EXIT_SIGINT)` unconditionally — it never consults the
accumulated `exitCode`.  `none` means the event list was exhausted with
the loop still running. -/
def runWatch (cfg : WatchConfig) : WatchState → List WatchEvent → Option WatchEnd
  | _, [] => none
  | st, .sigint :: _ => some { polls := st.pollCount, exitCode := EXIT_SIGINT }
  | st, .poll o :: rest =>
      let st' := watchTick cfg st o
      if st'.shouldExit then some { polls := st'.pollCount, exitCode := st'.exitCode }
      else runWatch cfg st' rest

end MCBD

namespace MCBD

/-! ## Concrete sample data

Concrete records, configurations and oracles used by witnesses,
counterexamples and scenario theorems. -/

/-- A diff record whose diff of `+5` (at 0 decimals) trips a `>0`
absolute threshold. -/
def alertDiffRecord : BalanceDiffRecord :=
  { current := ⟨5, "5", 0⟩, previous := ⟨0, "0", 0⟩, diff := 5,
    currentBlock := 100, previousBlock := 50 }

/-- A diff record with no balance change. -/
def cleanDiffRecord : BalanceDiffRecord :=
  { current := ⟨7, "7", 0⟩, previous := ⟨7, "7", 0⟩, diff := 0,
    currentBlock := 100, previousBlock := 50 }

/-- Watch configuration: `--count 0`, no thresholds, no early-exit
flags. -/
def watchCfgCount0 : WatchConfig :=
  { maxPolls := some 0, exitOnError := false, exitOnDiff := false,
    threshold := none, pctThreshold := none, decimals := 0 }

/-- Watch configuration: `--count 2 --alert-if-diff ">0"` (at 0
decimals), no early-exit flags. -/
def watchCfgCount2 : WatchConfig :=
  { maxPolls := some 2, exitOnError := false, exitOnDiff := false,
    threshold := some ⟨.gt, 0⟩, pctThreshold := none, decimals := 0 }

/-- Watch configuration: `--count 3 --alert-if-diff ">0"` (at 0
decimals), no early-exit flags. -/
def watchCfgCount3 : WatchConfig :=
  { maxPolls := some 3, exitOnError := false, exitOnDiff := false,
    threshold := some ⟨.gt, 0⟩, pctThreshold := none, decimals := 0 }

/-- Does the character sequence `pat` start the sequence `l`? -/
def seqStartsWith : List Char → List Char → Bool
  | [], _ => true
  | _ :: _, [] => false
  | p :: ps, c :: cs => p = c && seqStartsWith ps cs

/-- Does the character sequence `l` contain `pat` as a contiguous
subsequence?  (Plain substring containment, used to state the spec's
"string containing …" example.) -/
def seqContains (l pat : List Char) : Bool :=
  match l with
  | [] => seqStartsWith pat []
  | _ :: t => seqStartsWith pat l || seqContains t pat

end MCBD

namespace MCBD

/-! ## Theorems -/

/-- C1.  For every diff computation, the record returned by
`getNativeBalanceDiff` satisfies `diff = current.raw - previous.raw` as
exact arbitrary-precision integers — also when `previous.raw >
current.raw`, in which case `diff` is negative — and `buildJsonOutput`'s
`diffSign` field is `"negative"` exactly when `diff < 0` and
`"positive"` exactly when `diff ≥ 0`. -/
theorem diff_arithmetic_and_sign (getCurrentBlock : ℤ)
    (getNativeBalance : ℤ → BalanceSnapshot) (blocksBack : ℤ) :
    (getNativeBalanceDiff getCurrentBlock getNativeBalance blocksBack).diff =
      (getNativeBalanceDiff getCurrentBlock getNativeBalance blocksBack).current.raw -
      (getNativeBalanceDiff getCurrentBlock getNativeBalance blocksBack).previous.raw ∧
    (diffSign (getNativeBalanceDiff getCurrentBlock getNativeBalance blocksBack).diff =
        "negative" ↔
      (getNativeBalanceDiff getCurrentBlock getNativeBalance blocksBack).diff < 0) ∧
    (diffSign (getNativeBalanceDiff getCurrentBlock getNativeBalance blocksBack).diff =
        "positive" ↔
      0 ≤ (getNativeBalanceDiff getCurrentBlock getNativeBalance blocksBack).diff) := by
  refine ⟨rfl, ?_, ?_⟩ <;>
    · unfold diffSign
      split <;> simp_all

/-- C2.  For every current height `h ≥ 0` and every lookback `n`,
`getNativeBalanceDiff` computes the previous height as `max 0 (h - n)`;
the previous height is never negative, and when the lookback exceeds the
current height it is exactly `0`. -/
theorem previous_height_clamped (getNativeBalance : ℤ → BalanceSnapshot)
    (h n : ℤ) (_hh : 0 ≤ h) :
    (getNativeBalanceDiff h getNativeBalance n).previousBlock = max 0 (h - n) ∧
    0 ≤ (getNativeBalanceDiff h getNativeBalance n).previousBlock ∧
    (h < n → (getNativeBalanceDiff h getNativeBalance n).previousBlock = 0) := by
  refine ⟨rfl, le_max_left 0 (h - n), fun hlt => ?_⟩
  have : h - n < 0 := by omega
  simp [getNativeBalanceDiff, max_eq_left_iff.mpr (le_of_lt this)]

/-- Witness for C2 at `h = 100`, `n = 150`: the previous height is `0`. -/
theorem previous_height_clamped_witness :
    (getNativeBalanceDiff 100 (fun _ => ⟨0, "0", 9⟩) 150).previousBlock = 0 :=
  (previous_height_clamped (fun _ => ⟨0, "0", 9⟩) 100 150 (by norm_num)).2.2
    (by norm_num)

/-- C7.  For every diff value, decimals value and threshold
(operator and value), `checkPercentageThreshold` returns `false`
whenever the previous-snapshot balance is zero: the `previousRaw === 0n`
guard fires before any division, so no alert can trigger. -/
theorem percentage_threshold_zero_guard (diffRaw : ℤ) (decimals : ℕ)
    (threshold : Option ThresholdValue) :
    checkPercentageThreshold diffRaw 0 decimals threshold = false := by
  cases threshold <;> simp [checkPercentageThreshold]

/-- C9.  For the Solana adapter, when the native-balance query at a
specific historical slot is rejected by the RPC node (`getBalanceAt s`
throws) and the plain latest-state query succeeds with value `v`,
`getNativeBalance` returns a successful snapshot carrying the
latest-state balance `v` instead of propagating the rejection. -/
theorem solana_historical_fallback (getBalanceAt : ℤ → Except String ℕ)
    (s : ℤ) (e : String) (v : ℕ) (hrej : getBalanceAt s = .error e) :
    solanaGetNativeBalance getBalanceAt (.ok v) (.slot s) =
      .ok ⟨(v : ℤ), solanaFormatBalance v 9, 9⟩ := by
  simp [solanaGetNativeBalance, hrej, Except.map]

/-- Witness for C9: a node that rejects every historical slot, with
latest balance `42`. -/
theorem solana_historical_fallback_witness :
    solanaGetNativeBalance (fun _ => .error "slot rejected") (.ok 42) (.slot 12345) =
      .ok ⟨(42 : ℤ), solanaFormatBalance 42 9, 9⟩ :=
  solana_historical_fallback (fun _ => .error "slot rejected") 12345 "slot rejected" 42 rfl

/-- C10.  In watch mode, a SIGINT delivered at a tick boundary
terminates the run with exit code `130` regardless of the accumulated
state — in particular even when an earlier poll had already triggered an
alert and set the pending exit code to `EXIT_DIFF`: the handler calls
`process.exit(EXIT_SIGINT)` unconditionally.  Conjunct 2 shows the
concrete override (alert on poll 1, then SIGINT → 130); conjunct 3 shows
that without the SIGINT the same run would have ended with exit
code `1`. -/
theorem sigint_overrides_exit_code :
    (∀ (cfg : WatchConfig) (st : WatchState) (evs : List WatchEvent),
      runWatch cfg st (.sigint :: evs) = some ⟨st.pollCount, EXIT_SIGINT⟩) ∧
    runWatch watchCfgCount2 initialWatchState
      [.poll (.success alertDiffRecord), .sigint] = some ⟨1, 130⟩ ∧
    runWatch watchCfgCount2 initialWatchState
      [.poll (.success alertDiffRecord), .poll (.success cleanDiffRecord)] =
      some ⟨2, 1⟩ := by
  refine ⟨fun cfg st evs => rfl, ?_, ?_⟩ <;>
    norm_num [runWatch, watchTick, initialWatchState, watchCfgCount2, pollAlert,
      checkThreshold, checkPercentageThreshold, bigintToNumber, CmpOp.apply,
      alertDiffRecord, cleanDiffRecord, EXIT_DIFF, EXIT_SIGINT, EXIT_OK]

end MCBD

namespace MCBD

/-- Membership in the EVM token-balance result is exactly "the lookup
succeeded with a strictly positive raw balance".  Helper for C5. -/
theorem mem_getTokenBalances (fetch : TokenConfig → Option ℤ) (fmt : ℤ → ℕ → String)
    (tokens : List TokenConfig) (tb : TokenBalance) :
    tb ∈ getTokenBalances fetch fmt tokens ↔
      ∃ t ∈ tokens, getTokenBalance fetch fmt t = some tb ∧ 0 < tb.raw := by
  unfold getTokenBalances
  simp only [List.mem_filterMap, List.mem_map]
  constructor
  · rintro ⟨r, ⟨t, ht, rfl⟩, hr⟩
    refine ⟨t, ht, ?_⟩
    rcases hfetch : getTokenBalance fetch fmt t with _ | tb'
    · rw [hfetch] at hr; cases hr
    · rw [hfetch] at hr
      by_cases hpos : 0 < tb'.raw
      · simp only [hpos, if_pos] at hr
        obtain rfl : tb' = tb := Option.some.inj hr
        exact ⟨rfl, hpos⟩
      · simp only [if_neg hpos] at hr
        cases hr
  · rintro ⟨t, ht, hfetch, hpos⟩
    exact ⟨getTokenBalance fetch fmt t, ⟨t, ht, rfl⟩, by simp [hfetch, hpos]⟩

/-- C5.  The adapters' token-balance queries return exactly the
configured tokens whose fetched raw balance is strictly positive:

1. (EVM) an entry appears iff its token's lookup succeeded with a
   positive raw balance — so a token fetched with raw balance `0` never
   appears;
2. (EVM) every returned entry has a strictly positive raw balance;
3. (EVM) a token fetched with raw balance `1` (smallest unit) always
   appears, as the entry `_getTokenBalance` builds for it;
4. (EVM) when every individual lookup fails the result is the empty
   list — failures are silently omitted, never an error;
5. (Solana) every returned entry has a strictly positive raw balance,
   so a zero-balance SPL account never appears;
6. (Solana) a failed `getParsedTokenAccountsByOwner` call yields the
   empty list, not an error. -/
theorem token_balances_positive_only :
    (∀ (fetch : TokenConfig → Option ℤ) (fmt : ℤ → ℕ → String)
       (tokens : List TokenConfig) (tb : TokenBalance),
      tb ∈ getTokenBalances fetch fmt tokens ↔
        ∃ t ∈ tokens, getTokenBalance fetch fmt t = some tb ∧ 0 < tb.raw) ∧
    (∀ (fetch : TokenConfig → Option ℤ) (fmt : ℤ → ℕ → String)
       (tokens : List TokenConfig) (tb : TokenBalance),
      tb ∈ getTokenBalances fetch fmt tokens → 0 < tb.raw) ∧
    (∀ (fetch : TokenConfig → Option ℤ) (fmt : ℤ → ℕ → String)
       (tokens : List TokenConfig) (t : TokenConfig),
      t ∈ tokens → fetch t = some 1 →
      (⟨t.symbol, t.address, 1, fmt 1 t.decimals, t.decimals⟩ : TokenBalance) ∈
        getTokenBalances fetch fmt tokens) ∧
    (∀ (fmt : ℤ → ℕ → String) (tokens : List TokenConfig),
      getTokenBalances (fun _ => none) fmt tokens = []) ∧
    (∀ (accounts : Option (List SplTokenAccount)) (tokens : List TokenConfig)
       (tb : TokenBalance),
      tb ∈ solanaGetTokenBalances accounts tokens → 0 < tb.raw) ∧
    (∀ tokens : List TokenConfig, solanaGetTokenBalances none tokens = []) := by
  refine ⟨mem_getTokenBalances, ?_, ?_, ?_, ?_, ?_⟩
  · intro fetch fmt tokens tb htb
    exact ((mem_getTokenBalances fetch fmt tokens tb).mp htb).choose_spec.2.2
  · intro fetch fmt tokens t ht hfetch
    exact (mem_getTokenBalances fetch fmt tokens _).mpr
      ⟨t, ht, by simp [getTokenBalance, hfetch], by norm_num⟩
  · intro fmt tokens
    unfold getTokenBalances
    rw [List.filterMap_eq_nil_iff]
    intro r hr
    rcases List.mem_map.mp hr with ⟨t, _, rfl⟩
    simp [getTokenBalance]
  · intro accounts tokens tb htb
    rcases accounts with _ | accs
    · cases htb
    · rcases List.mem_filterMap.mp htb with ⟨a, _, ha⟩
      unfold solanaAccountEntry at ha
      rcases hfind : tokens.find? (fun t => t.address = a.mint) with _ | tc
      · rw [hfind] at ha
        cases ha
      · rw [hfind] at ha
        by_cases hpos : 0 < a.amount
        · simp only [hpos, if_pos] at ha
          obtain rfl := Option.some.inj ha
          exact hpos
        · simp only [if_neg hpos] at ha
          cases ha
  · intro tokens
    rfl

/-- Witness for C5: one configured token fetched with raw balance `1`
appears in the result. -/
theorem token_balances_positive_only_witness :
    (⟨"USDC", "0xA0b8", 1, "0.000001", 6⟩ : TokenBalance) ∈
      getTokenBalances (fun _ => some 1) (fun _ _ => "0.000001")
        [⟨"USDC", "0xA0b8", 6⟩] :=
  token_balances_positive_only.2.2.1 (fun _ => some 1) (fun _ _ => "0.000001")
    [⟨"USDC", "0xA0b8", 6⟩] ⟨"USDC", "0xA0b8", 6⟩ (List.mem_singleton.mpr rfl) rfl

end MCBD

namespace MCBD

/-- A digit character is none of the operator/sign characters. -/
theorem isDigitChar_ne (c : Char) (h : isDigitChar c = true) :
    c ≠ '=' ∧ c ≠ '>' ∧ c ≠ '<' := by
  refine ⟨?_, ?_, ?_⟩ <;> (rintro rfl; revert h; decide)

/-- A character list accepted by `isSignedDecimal` starts with `'-'` or a
digit. -/
theorem isSignedDecimal_head (c : Char) (r : List Char)
    (h : isSignedDecimal (c :: r) = true) : c = '-' ∨ isDigitChar c = true := by
  by_cases hc : c = '-'
  · exact Or.inl hc
  · right
    by_contra hd
    simp only [Bool.not_eq_true] at hd
    unfold isSignedDecimal at h
    have hhead : (c :: r).head? ≠ some '-' := by simp [hc]
    simp only [if_neg hhead] at h
    rw [List.takeWhile_cons, List.dropWhile_cons, hd] at h
    simp only [Bool.false_eq_true, if_false] at h
    split at h <;> simp_all

/-- Lemma: `isSignedDecimal` rejects the empty list. -/
theorem isSignedDecimal_nil : isSignedDecimal [] = false := by decide

/-- Lemma: `stripOperator` on a list not starting with `'>'` or `'<'` is the
identity with the default `>` operator. -/
theorem stripOperator_default (c : Char) (r : List Char)
    (h1 : c ≠ '>') (h2 : c ≠ '<') :
    stripOperator (c :: r) = (.gt, c :: r) := by
  unfold stripOperator
  split <;> simp_all

/-- Lemma: `stripOperator` after `'>'` when the next character is not `'='`. -/
theorem stripOperator_gt (c : Char) (r : List Char) (hc : c ≠ '=') :
    stripOperator ('>' :: c :: r) = (.gt, c :: r) := by
  unfold stripOperator
  split <;> simp_all

/-- Lemma: `stripOperator` after `'<'` when the next character is not `'='`. -/
theorem stripOperator_lt (c : Char) (r : List Char) (hc : c ≠ '=') :
    stripOperator ('<' :: c :: r) = (.lt, c :: r) := by
  unfold stripOperator
  split <;> simp_all

/-- Every input is split by `stripOperator` into its operator text and the
remainder, or passed through unchanged under the default `>` operator. -/
theorem stripOperator_cases (l : List Char) :
    l = (stripOperator l).1.text.toList ++ (stripOperator l).2 ∨
      ((stripOperator l).1 = .gt ∧ (stripOperator l).2 = l) := by
  unfold stripOperator
  split <;> simp [CmpOp.text]

end MCBD

namespace MCBD

/-- C6.  `parseThreshold` returns the same `(operator, value)` result
for `"0.01"` as for `">0.01"` — the comparison operator defaults to `>`
when omitted — accepts exactly the operators `>`, `>=`, `<`, `<=`
followed by a signed decimal value matching `-?\d+\.?\d*`, and returns
`null` (not an error) for malformed input such as `"invalid"`:

1. the two concrete examples agree and `"invalid"` parses to `none`;
2. (completeness, with default) every signed decimal `num` parses bare
   as `(>, num)`, and parses as `(op, num)` when preceded by any of the
   four operators;
3. (soundness) every accepted string is an operator followed by a
   signed decimal, or a bare signed decimal with the default `>`. -/
theorem parse_threshold_default_and_accepts :
    (parseThreshold "0.01" = parseThreshold ">0.01" ∧
      parseThreshold "0.01" = some ⟨.gt, "0.01"⟩ ∧
      parseThreshold "invalid" = none) ∧
    (∀ num : List Char, isSignedDecimal num = true →
      parseThreshold ⟨num⟩ = some ⟨.gt, ⟨num⟩⟩ ∧
      ∀ op : CmpOp, parseThreshold ⟨op.text.toList ++ num⟩ = some ⟨op, ⟨num⟩⟩) ∧
    (∀ (s : String) (t : Threshold), parseThreshold s = some t →
      isSignedDecimal t.value.toList = true ∧
      (s.toList = t.operator.text.toList ++ t.value.toList ∨
        (t.operator = .gt ∧ t.value.toList = s.toList))) := by
  refine ⟨⟨by decide, by decide, by decide⟩, ?_, ?_⟩
  · intro num hnum
    rcases num with _ | ⟨c, t⟩
    · rw [isSignedDecimal_nil] at hnum
      cases hnum
    · have hops : c ≠ '>' ∧ c ≠ '<' ∧ c ≠ '=' := by
        rcases isSignedDecimal_head c t hnum with rfl | hd
        · exact ⟨by decide, by decide, by decide⟩
        · obtain ⟨h1, h2, h3⟩ := isDigitChar_ne c hd
          exact ⟨h2, h3, h1⟩
      have hne : (⟨c :: t⟩ : String) ≠ "" := by
        intro heq
        have := congrArg String.data heq
        simp at this
      constructor
      · unfold parseThreshold
        rw [if_neg hne]
        have hl : (⟨c :: t⟩ : String).toList = c :: t := rfl
        rw [hl, stripOperator_default c t hops.1 hops.2.1]
        simp [hnum]
      · intro op
        have hne2 : (⟨op.text.toList ++ c :: t⟩ : String) ≠ "" := by
          intro heq
          have := congrArg String.data heq
          cases op <;> simp [CmpOp.text] at this
        unfold parseThreshold
        rw [if_neg hne2]
        have hl : (⟨op.text.toList ++ c :: t⟩ : String).toList =
            op.text.toList ++ c :: t := rfl
        rw [hl]
        cases op
        · rw [show (CmpOp.gt.text.toList ++ c :: t) = '>' :: c :: t from rfl,
            stripOperator_gt c t hops.2.2]
          simp [hnum]
        · rw [show (CmpOp.ge.text.toList ++ c :: t) = '>' :: '=' :: c :: t from rfl]
          rw [show stripOperator ('>' :: '=' :: c :: t) = (.ge, c :: t) from rfl]
          simp [hnum]
        · rw [show (CmpOp.lt.text.toList ++ c :: t) = '<' :: c :: t from rfl,
            stripOperator_lt c t hops.2.2]
          simp [hnum]
        · rw [show (CmpOp.le.text.toList ++ c :: t) = '<' :: '=' :: c :: t from rfl]
          rw [show stripOperator ('<' :: '=' :: c :: t) = (.le, c :: t) from rfl]
          simp [hnum]
  · intro s t h
    unfold parseThreshold at h
    by_cases hs : s = ""
    · rw [if_pos hs] at h
      cases h
    · rw [if_neg hs] at h
      by_cases hsd : isSignedDecimal (stripOperator s.toList).2 = true
      · simp only [hsd, if_pos] at h
        obtain rfl := Option.some.inj h
        refine ⟨hsd, ?_⟩
        rcases stripOperator_cases s.toList with hcase | ⟨hop, hrest⟩
        · exact Or.inl (by exact_mod_cast hcase)
        · exact Or.inr ⟨hop, by exact_mod_cast hrest⟩
      · simp only [Bool.not_eq_true] at hsd
        rw [show s.toList = s.data from rfl] at hsd
        simp [hsd] at h

/-- Witness for C6: `">=-0.5"` parses to `(≥, "-0.5")` via the
completeness direction. -/
theorem parse_threshold_default_and_accepts_witness :
    parseThreshold ">=-0.5" = some ⟨.ge, "-0.5"⟩ := by
  have h := (parse_threshold_default_and_accepts.2.1 "-0.5".toList (by decide)).2 .ge
  exact h

end MCBD

namespace MCBD

/-- Lemma: `fetchAddressData` always returns an entry for the queried address. -/
theorem fetchAddressData_address (isValidAddress : String → Bool)
    (fetchDiff : String → Except String BalanceDiffRecord)
    (fetchTokens : String → Except String (List TokenBalance))
    (checkTokens : Bool) (chainType : String) (a : String) :
    (fetchAddressData isValidAddress fetchDiff fetchTokens checkTokens chainType a).address
      = a := by
  unfold fetchAddressData
  repeat' split
  all_goals rfl

/-- C4 counterexample.  In batch mode with three addresses of which
the second (`"bogus"`) is malformed, `main`'s pre-validation loop
(`src/index.js`, lines 989–1005) calls `process.exit(1)` before any fetch:
the outcome is `invalidAddressExit`, which carries no per-address results
— not a completed batch with three entries as the claim states. -/
theorem batch_malformed_address_fails_fast :
    mainBatch (fun a => a ≠ "bogus") (fun _ => .ok cleanDiffRecord) (fun _ => .ok [])
      true "evm" 18 none none ["0xAAA", "bogus", "0xBBB"] = .invalidAddressExit 1 := by
  decide

/-- C4 (amended).  The batch path of `main` fail-fasts on malformed
addresses and isolates runtime failures:

1. if any input address fails the adapter's syntactic validation, the
   run exits with code 1 before fetching, producing no per-address
   results;
2. if every input address is well-formed, the batch completes with
   exactly one entry per input address, in order, and the exit code is
   `EXIT_DIFF` when some non-errored entry trips a threshold and
   `EXIT_OK` otherwise — runtime fetch errors do not change the exit
   code;
3. a runtime fetch failure for one well-formed address yields an error
   entry for that address (the `try/catch` of `fetchAddressData`), not a
   thrown error, so other addresses are unaffected. -/
theorem batch_fail_fast_and_isolation :
    (∀ (isValidAddress : String → Bool)
       (fetchDiff : String → Except String BalanceDiffRecord)
       (fetchTokens : String → Except String (List TokenBalance))
       (checkTokens : Bool) (chainType : String) (decimals : ℕ)
       (threshold pctThreshold : Option ThresholdValue) (addresses : List String),
      (∃ a ∈ addresses, isValidAddress a = false) →
      mainBatch isValidAddress fetchDiff fetchTokens checkTokens chainType decimals
        threshold pctThreshold addresses = .invalidAddressExit 1) ∧
    (∀ (isValidAddress : String → Bool)
       (fetchDiff : String → Except String BalanceDiffRecord)
       (fetchTokens : String → Except String (List TokenBalance))
       (checkTokens : Bool) (chainType : String) (decimals : ℕ)
       (threshold pctThreshold : Option ThresholdValue) (addresses : List String),
      (∀ a ∈ addresses, isValidAddress a = true) →
      mainBatch isValidAddress fetchDiff fetchTokens checkTokens chainType decimals
          threshold pctThreshold addresses =
        .completed
          (addresses.map
            (fetchAddressData isValidAddress fetchDiff fetchTokens checkTokens chainType))
          (if (addresses.map
               (fetchAddressData isValidAddress fetchDiff fetchTokens checkTokens
                 chainType)).any (entryTriggersAlert decimals threshold pctThreshold)
           then 1 else 0) ∧
      (addresses.map
        (fetchAddressData isValidAddress fetchDiff fetchTokens checkTokens
          chainType)).map AddressResult.address = addresses) ∧
    (∀ (isValidAddress : String → Bool)
       (fetchDiff : String → Except String BalanceDiffRecord)
       (fetchTokens : String → Except String (List TokenBalance))
       (checkTokens : Bool) (chainType : String) (a e : String),
      isValidAddress a = true → fetchDiff a = .error e →
      fetchAddressData isValidAddress fetchDiff fetchTokens checkTokens chainType a =
        .err a e) := by
  refine ⟨?_, ?_, ?_⟩
  · intro isValidAddress fetchDiff fetchTokens checkTokens chainType decimals
      threshold pctThreshold addresses ⟨a, ha, hfalse⟩
    unfold mainBatch
    have hany : (addresses.any fun a => !isValidAddress a) = true :=
      List.any_eq_true.mpr ⟨a, ha, by simp [hfalse]⟩
    simp [hany]
  · intro isValidAddress fetchDiff fetchTokens checkTokens chainType decimals
      threshold pctThreshold addresses hall
    have hany : (addresses.any fun a => !isValidAddress a) = false := by
      rw [List.any_eq_false]
      intro a ha
      simp [hall a ha]
    constructor
    · unfold mainBatch
      simp [hany]
    · rw [List.map_map]
      have : addresses.map
          (AddressResult.address ∘
            fetchAddressData isValidAddress fetchDiff fetchTokens checkTokens chainType) =
          addresses.map id :=
        List.map_congr_left fun a _ =>
          fetchAddressData_address isValidAddress fetchDiff fetchTokens checkTokens
            chainType a
      rw [this, List.map_id]
  · intro isValidAddress fetchDiff fetchTokens checkTokens chainType a e hvalid herr
    unfold fetchAddressData
    simp [hvalid, herr]

/-- Witness for C4 (amended): three well-formed addresses where the
middle fetch fails at runtime produce three entries — two successes and
one error — and exit code 0 (no threshold configured). -/
theorem batch_fail_fast_and_isolation_witness :
    mainBatch (fun _ => true)
      (fun a => if a = "b" then .error "boom" else .ok cleanDiffRecord)
      (fun _ => .ok []) false "evm" 0 none none ["a", "b", "c"] =
      .completed [.ok "a" cleanDiffRecord [], .err "b" "boom",
        .ok "c" cleanDiffRecord []] 0 := by
  have h := (batch_fail_fast_and_isolation.2.1 (fun _ => true)
    (fun a => if a = "b" then .error "boom" else .ok cleanDiffRecord)
    (fun _ => .ok []) false "evm" 0 none none ["a", "b", "c"]
    (fun _ _ => rfl)).1
  exact h.trans (by decide)

end MCBD

namespace MCBD

/-- One successful tick under a bounded count with `--exit-on-diff`
unset: poll counter advances, an alert stickies the exit code, and the
tick requests exit exactly when the counter reaches the bound. -/
theorem watchTick_success (cfg : WatchConfig) (N : ℤ) (st : WatchState)
    (bd : BalanceDiffRecord) (hmax : cfg.maxPolls = some N)
    (hdiff : cfg.exitOnDiff = false) :
    watchTick cfg st (.success bd) =
      ⟨st.pollCount + 1,
       if pollAlert cfg bd then EXIT_DIFF else st.exitCode,
       if ((st.pollCount + 1 : ℕ) : ℤ) ≥ N then true else st.shouldExit⟩ := by
  unfold watchTick
  rw [hmax, hdiff]
  simp only [Bool.and_false, Bool.false_eq_true, if_false]
  split <;> rfl

/-- Core run lemma for C8: from a non-exiting state, a non-empty run of
successful polls that exactly exhausts the bound performs all of them
and ends with the sticky alert exit code. -/
theorem runWatch_all_success (cfg : WatchConfig) (N : ℤ)
    (hmax : cfg.maxPolls = some N) (hdiff : cfg.exitOnDiff = false) :
    ∀ (outs : List BalanceDiffRecord) (st : WatchState),
      st.shouldExit = false →
      (st.pollCount : ℤ) + outs.length = N →
      outs ≠ [] →
      runWatch cfg st (outs.map fun bd => .poll (.success bd)) =
        some ⟨st.pollCount + outs.length,
          if outs.any (pollAlert cfg) then EXIT_DIFF else st.exitCode⟩ := by
  intro outs
  induction outs with
  | nil => exact fun st _ _ hne => absurd rfl hne
  | cons bd rest ih =>
      intro st hse hlen _
      simp only [List.map_cons, runWatch]
      rw [watchTick_success cfg N st bd hmax hdiff]
      rcases rest with _ | ⟨bd2, rest2⟩
      · have hreach : ((st.pollCount + 1 : ℕ) : ℤ) ≥ N := by
          simp only [List.length_cons, List.length_nil] at hlen
          push_cast at hlen ⊢
          omega
        simp only [hreach, if_pos, if_true]
        simp [hse, List.any_cons]
      · have hnotreach : ¬ ((st.pollCount + 1 : ℕ) : ℤ) ≥ N := by
          simp only [List.length_cons] at hlen
          push_cast at hlen ⊢
          omega
        simp only [if_neg hnotreach, hse]
        have hstep := ih ⟨st.pollCount + 1,
            if pollAlert cfg bd then EXIT_DIFF else st.exitCode, false⟩
          rfl (by simp only [List.length_cons] at hlen ⊢; push_cast at hlen ⊢; omega)
          (by simp)
        simp only at hstep
        rw [if_neg (by simp)]
        rw [hstep]
        simp only [Option.some.injEq, WatchEnd.mk.injEq]
        constructor
        · simp only [List.length_cons]
          omega
        · by_cases hb : pollAlert cfg bd <;>
            by_cases hr : (bd2 :: rest2).any (pollAlert cfg) <;>
            simp [hb, hr, List.any_cons]

end MCBD

namespace MCBD

/-- C8 counterexample.  With `--count 0` — a bounded poll count
configured via `--count` — the scheduler still performs one poll, not
zero: `pollCount >= maxPolls` is only checked after `pollCount++`, so
every run executes at least one tick.  The run below terminates with a
`watch_end` of `polls = 1`, contradicting "performs exactly N polls"
at `N = 0`. -/
theorem watch_count_zero_runs_one_poll :
    runWatch watchCfgCount0 initialWatchState [.poll (.success cleanDiffRecord)] =
      some ⟨1, EXIT_OK⟩ ∧ (1 : ℕ) ≠ 0 := by
  exact ⟨rfl, one_ne_zero⟩

/-- C8 (amended).  In watch mode with a bounded poll count `N ≥ 1`
configured via `--count`, no `--exit-on-diff`, and every poll
succeeding, the scheduler performs exactly `N` polls and then
terminates; the final exit code is `EXIT_DIFF` if any poll during the
run triggered an alert — even if later polls were clean, since the code
is sticky — and `EXIT_OK` only if all `N` polls were clean.  For
`N ≤ 0` (the source does not validate `--count`) the scheduler still
performs exactly one poll. -/
theorem watch_bounded_run_retrospective :
    (∀ (cfg : WatchConfig) (N : ℤ) (outs : List BalanceDiffRecord),
      cfg.maxPolls = some N → cfg.exitOnDiff = false → 1 ≤ N →
      (outs.length : ℤ) = N →
      runWatch cfg initialWatchState (outs.map fun bd => .poll (.success bd)) =
        some ⟨outs.length, if outs.any (pollAlert cfg) then EXIT_DIFF else EXIT_OK⟩) ∧
    (∀ (cfg : WatchConfig) (N : ℤ) (bd : BalanceDiffRecord) (evs : List WatchEvent),
      cfg.maxPolls = some N → cfg.exitOnDiff = false → N ≤ 0 →
      runWatch cfg initialWatchState (.poll (.success bd) :: evs) =
        some ⟨1, if pollAlert cfg bd then EXIT_DIFF else EXIT_OK⟩) := by
  constructor
  · intro cfg N outs hmax hdiff hN hlen
    have hne : outs ≠ [] := by
      intro h
      rw [h] at hlen
      simp at hlen
      omega
    have h := runWatch_all_success cfg N hmax hdiff outs initialWatchState rfl
      (by simpa [initialWatchState] using hlen) hne
    simpa [initialWatchState, EXIT_OK] using h
  · intro cfg N bd evs hmax hdiff hN
    simp only [runWatch]
    rw [watchTick_success cfg N initialWatchState bd hmax hdiff]
    have hreach : ((initialWatchState.pollCount + 1 : ℕ) : ℤ) ≥ N := by
      simp only [initialWatchState]
      push_cast
      omega
    rw [if_pos hreach]
    simp [initialWatchState, EXIT_OK]

/-- Witness for C8 (amended): `--count 3` with a `>0` threshold, clean
polls 1–2 and an alert on poll 3 — exactly three polls and final exit
code 1. -/
theorem watch_bounded_run_retrospective_witness :
    runWatch watchCfgCount3 initialWatchState
      ([cleanDiffRecord, cleanDiffRecord, alertDiffRecord].map
        fun bd => .poll (.success bd)) = some ⟨3, EXIT_DIFF⟩ := by
  have h := watch_bounded_run_retrospective.1 watchCfgCount3 3
    [cleanDiffRecord, cleanDiffRecord, alertDiffRecord] rfl rfl (by norm_num)
    (by norm_num)
  rw [h]
  norm_num [List.any_cons, pollAlert, watchCfgCount3, checkThreshold,
    checkPercentageThreshold, bigintToNumber, CmpOp.apply, alertDiffRecord,
    cleanDiffRecord]

end MCBD

namespace MCBD

/-- The fuel-based digit computation agrees with `Nat.digits 10` once the
fuel dominates the argument. -/
theorem natDecDigitsAux_eq (fuel : ℕ) :
    ∀ n : ℕ, n ≤ fuel → natDecDigitsAux fuel n = Nat.digits 10 n := by
  induction fuel with
  | zero =>
      intro n hn
      interval_cases n
      simp [natDecDigitsAux]
  | succ fuel ih =>
      intro n hn
      by_cases hz : n = 0
      · subst hz
        simp [natDecDigitsAux]
      · rw [natDecDigitsAux, if_neg hz,
          Nat.digits_def' (by norm_num : (1:ℕ) < 10) (Nat.pos_of_ne_zero hz),
          ih (n / 10) ?_]
        have := Nat.div_lt_self (Nat.pos_of_ne_zero hz) (by norm_num : (1:ℕ) < 10)
        omega

/-- For nonzero `n`, `natDecDigits` is the most-significant-first list of
`Nat.digits 10 n`. -/
theorem natDecDigits_eq (n : ℕ) (hn : n ≠ 0) :
    natDecDigits n = (Nat.digits 10 n).reverse := by
  rw [natDecDigits, if_neg hn, natDecDigitsAux_eq n n le_rfl]

/-- Lemma: `natDecDigits` never returns the empty list. -/
theorem natDecDigits_ne_nil (n : ℕ) : natDecDigits n ≠ [] := by
  by_cases hn : n = 0
  · subst hn
    decide
  · rw [natDecDigits_eq n hn]
    simp [Nat.digits_ne_nil_iff_ne_zero.mpr hn]

/-- Every entry of `natDecDigits` is a decimal digit. -/
theorem mem_natDecDigits_lt (n : ℕ) : ∀ d ∈ natDecDigits n, d < 10 := by
  intro d hd
  by_cases hn : n = 0
  · subst hn
    rw [show natDecDigits 0 = [0] from rfl, List.mem_singleton] at hd
    omega
  · rw [natDecDigits_eq n hn, List.mem_reverse] at hd
    exact Nat.digits_lt_base (by norm_num) hd

/-- Digit characters decode to their digit value. -/
theorem charDigit_digitChar (d : ℕ) (h : d < 10) : charDigit (digitChar d) = d := by
  interval_cases d <;> decide

/-- Digit characters pass `isDigitChar`. -/
theorem isDigitChar_digitChar (d : ℕ) (h : d < 10) :
    isDigitChar (digitChar d) = true := by
  interval_cases d <;> decide

/-- Digit characters are not the decimal point. -/
theorem digitChar_ne_dot (d : ℕ) (h : d < 10) : digitChar d ≠ '.' := by
  interval_cases d <;> decide

/-- Decoding after encoding a digit list is the identity. -/
theorem map_charDigit_map_digitChar (l : List ℕ) (h : ∀ d ∈ l, d < 10) :
    (l.map digitChar).map charDigit = l := by
  induction l with
  | nil => rfl
  | cons d t ih =>
      simp only [List.map_cons, List.cons.injEq]
      exact ⟨charDigit_digitChar d (h d (List.mem_cons_self d t)),
        ih fun x hx => h x (List.mem_cons_of_mem d hx)⟩

/-- Lemma: `charsToNat` reads an encoded digit list as its base-10 value. -/
theorem charsToNat_map_digitChar (l : List ℕ) (h : ∀ d ∈ l, d < 10) :
    charsToNat (l.map digitChar) = Nat.ofDigits 10 l.reverse := by
  rw [charsToNat, map_charDigit_map_digitChar l h]

/-- Lemma: `charsToNat` inverts `natDecDigits` followed by encoding. -/
theorem charsToNat_natDecDigits (n : ℕ) :
    charsToNat ((natDecDigits n).map digitChar) = n := by
  rw [charsToNat_map_digitChar _ (mem_natDecDigits_lt n)]
  by_cases hn : n = 0
  · subst hn
    decide
  · rw [natDecDigits_eq n hn, List.reverse_reverse, Nat.ofDigits_digits]

/-- Lemma: `takeWhile` over an explicit good-prefix/bad-head split. -/
theorem takeWhile_append_not (p : Char → Bool) (w : List Char) (c : Char)
    (rest : List Char) (hw : ∀ x ∈ w, p x = true) (hc : p c = false) :
    (w ++ c :: rest).takeWhile p = w := by
  induction w with
  | nil => simp [List.takeWhile_cons, hc]
  | cons a t ih =>
      rw [List.cons_append, List.takeWhile_cons, hw a (List.mem_cons_self a t)]
      simp only [if_true]
      rw [ih fun x hx => hw x (List.mem_cons_of_mem a hx)]

/-- Lemma: `dropWhile` over an explicit good-prefix/bad-head split. -/
theorem dropWhile_append_not (p : Char → Bool) (w : List Char) (c : Char)
    (rest : List Char) (hw : ∀ x ∈ w, p x = true) (hc : p c = false) :
    (w ++ c :: rest).dropWhile p = c :: rest := by
  induction w with
  | nil => simp [List.dropWhile_cons, hc]
  | cons a t ih =>
      rw [List.cons_append, List.dropWhile_cons, hw a (List.mem_cons_self a t)]
      simp only [if_true]
      exact ih fun x hx => hw x (List.mem_cons_of_mem a hx)

/-- Lemma: `takeWhile` of an all-good list is the list itself. -/
theorem takeWhile_eq_self_of_all (p : Char → Bool) (l : List Char)
    (hl : ∀ x ∈ l, p x = true) : l.takeWhile p = l := by
  induction l with
  | nil => rfl
  | cons a t ih =>
      rw [List.takeWhile_cons, hl a (List.mem_cons_self a t)]
      simp only [if_true]
      rw [ih fun x hx => hl x (List.mem_cons_of_mem a hx)]

/-- Lemma: `dropWhile` of an all-good list is empty. -/
theorem dropWhile_eq_nil_of_all (p : Char → Bool) (l : List Char)
    (hl : ∀ x ∈ l, p x = true) : l.dropWhile p = [] := by
  induction l with
  | nil => rfl
  | cons a t ih =>
      rw [List.dropWhile_cons, hl a (List.mem_cons_self a t)]
      simp only [if_true]
      exact ih fun x hx => hl x (List.mem_cons_of_mem a hx)

/-- Lemma: `dropWhile` distributes over an append whose first part is not
dropped entirely. -/
theorem dropWhile_append_of_ne_nil (p : ℕ → Bool) (A B : List ℕ)
    (h : A.dropWhile p ≠ []) :
    (A ++ B).dropWhile p = A.dropWhile p ++ B := by
  induction A with
  | nil => exact absurd rfl h
  | cons a t ih =>
      by_cases hp : p a = true
      · rw [List.dropWhile_cons, hp] at h
        simp only [if_true] at h
        rw [List.cons_append, List.dropWhile_cons, hp, List.dropWhile_cons, hp]
        simp only [if_true]
        exact ih h
      · rw [Bool.not_eq_true] at hp
        rw [List.cons_append, List.dropWhile_cons, hp, List.dropWhile_cons, hp]
        simp

/-- Lemma: `Nat.ofDigits` of a zero run is zero. -/
theorem ofDigits_replicate_zero (n : ℕ) :
    Nat.ofDigits 10 (List.replicate n 0) = 0 := by
  induction n with
  | zero => rfl
  | succ k ih => rw [List.replicate_succ, Nat.ofDigits_cons, ih]

/-- A number below `10 ^ d` has at most `d` decimal digits. -/
theorem digits_len_le_of_lt_pow (f d : ℕ) (h : f < 10 ^ d) :
    (Nat.digits 10 f).length ≤ d := by
  by_cases hf : f = 0
  · simp [hf]
  · by_contra hlen
    push_neg at hlen
    have h1 : 10 ^ (Nat.digits 10 f).length ≤ 10 * f :=
      Nat.base_pow_length_digits_le 10 f (by norm_num) hf
    have h2 : 10 ^ (d + 1) ≤ 10 ^ (Nat.digits 10 f).length :=
      Nat.pow_le_pow_right (by norm_num) hlen
    have h3 : 10 * 10 ^ d ≤ 10 * f := by
      calc 10 * 10 ^ d = 10 ^ (d + 1) := by ring
      _ ≤ 10 ^ (Nat.digits 10 f).length := h2
      _ ≤ 10 * f := h1
    omega

end MCBD

namespace MCBD

/-- Core fraction analysis for the round-trip: padding the digits of a
nonzero fraction `f < 10 ^ d` to `d` places and trimming the trailing
zeros leaves a non-empty digit list of at most `d` decimal digits whose
value, scaled back by the number of trimmed places, is `f` again. -/
theorem trimmed_fraction_spec (f d : ℕ) (hf0 : f ≠ 0) (hfd : f < 10 ^ d) :
    trimTrailingZeros (padStartZeros (natDecDigits f) d) ≠ [] ∧
    (trimTrailingZeros (padStartZeros (natDecDigits f) d)).length ≤ d ∧
    (∀ x ∈ trimTrailingZeros (padStartZeros (natDecDigits f) d), x < 10) ∧
    Nat.ofDigits 10 (trimTrailingZeros (padStartZeros (natDecDigits f) d)).reverse *
      10 ^ (d - (trimTrailingZeros (padStartZeros (natDecDigits f) d)).length) = f := by
  set pz : ℕ → Bool := fun x => decide (x = 0) with hpz
  set L := Nat.digits 10 f with hL
  set z := (L.takeWhile pz).length with hz
  have hk : L.length ≤ d := digits_len_le_of_lt_pow f d hfd
  have htake : L.takeWhile pz = List.replicate z 0 := by
    refine List.eq_replicate_iff.mpr ⟨rfl, fun b hb => ?_⟩
    have := List.mem_takeWhile_imp hb
    rw [hpz] at this
    exact of_decide_eq_true this
  have hsplit : L.takeWhile pz ++ L.dropWhile pz = L :=
    List.takeWhile_append_dropWhile pz L
  have hzk : z + (L.dropWhile pz).length = L.length := by
    rw [hz]
    have := congrArg List.length hsplit
    rwa [List.length_append] at this
  have hfval : 10 ^ z * Nat.ofDigits 10 (L.dropWhile pz) = f := by
    have h0 : Nat.ofDigits 10 L = f := Nat.ofDigits_digits 10 f
    calc 10 ^ z * Nat.ofDigits 10 (L.dropWhile pz)
        = Nat.ofDigits 10 (L.takeWhile pz) +
            10 ^ (L.takeWhile pz).length * Nat.ofDigits 10 (L.dropWhile pz) := by
          rw [htake, ofDigits_replicate_zero, List.length_replicate]
          simp
      _ = Nat.ofDigits 10 (L.takeWhile pz ++ L.dropWhile pz) := by
          exact_mod_cast (@Nat.ofDigits_append 10 (L.takeWhile pz) (L.dropWhile pz)).symm
      _ = f := by rw [hsplit, h0]
  have hdropne : L.dropWhile pz ≠ [] := by
    intro he
    rw [he] at hfval
    simp [Nat.ofDigits_nil] at hfval
    exact hf0 hfval.symm
  have hpad : padStartZeros (natDecDigits f) d =
      List.replicate (d - L.length) 0 ++ L.reverse := by
    rw [padStartZeros, natDecDigits_eq f hf0, List.length_reverse]
  have htrev : (trimTrailingZeros (padStartZeros (natDecDigits f) d)).reverse =
      L.dropWhile pz ++ List.replicate (d - L.length) 0 := by
    rw [trimTrailingZeros, List.reverse_reverse, hpad, List.reverse_append,
      List.reverse_reverse, List.reverse_replicate]
    exact dropWhile_append_of_ne_nil pz L _ hdropne
  have hlenT : (trimTrailingZeros (padStartZeros (natDecDigits f) d)).length =
      (L.dropWhile pz).length + (d - L.length) := by
    rw [← List.length_reverse, htrev, List.length_append, List.length_replicate]
  refine ⟨?_, ?_, ?_, ?_⟩
  · intro he
    rw [he] at htrev
    simp only [List.reverse_nil] at htrev
    exact hdropne (List.append_eq_nil.mp htrev.symm).1
  · omega
  · intro x hx
    rw [← List.mem_reverse, htrev, List.mem_append] at hx
    rcases hx with hx | hx
    · exact Nat.digits_lt_base (by norm_num)
        ((List.dropWhile_sublist pz).subset hx)
    · rw [List.eq_of_mem_replicate hx]
      omega
  · rw [htrev]
    have : Nat.ofDigits 10 (L.dropWhile pz ++ List.replicate (d - L.length) 0) =
        Nat.ofDigits 10 (L.dropWhile pz) := by
      rw [show (Nat.ofDigits 10 (L.dropWhile pz ++ List.replicate (d - L.length) 0) : ℕ)
          = Nat.ofDigits 10 (L.dropWhile pz) +
            10 ^ (L.dropWhile pz).length *
              Nat.ofDigits 10 (List.replicate (d - L.length) 0) from
        by exact_mod_cast @Nat.ofDigits_append 10 _ _]
      rw [ofDigits_replicate_zero]
      omega
    rw [this]
    have hdz : d - (trimTrailingZeros (padStartZeros (natDecDigits f) d)).length = z := by
      omega
    rw [hdz, Nat.mul_comm, hfval]

end MCBD

namespace MCBD

/-- A digit character is not the decimal point. -/
theorem isDigitChar_ne_dot (c : Char) (h : isDigitChar c = true) : c ≠ '.' := by
  intro heq
  subst heq
  exact absurd h (by decide)

/-- Lemma: `parseFixedPoint` on a pure digit string. -/
theorem parseFixedPoint_digits_only (w : List Char) (d : ℕ)
    (hne : w ≠ []) (hdig : ∀ x ∈ w, isDigitChar x = true) :
    parseFixedPoint ⟨w⟩ d = some (charsToNat w * 10 ^ d) := by
  have hall : ∀ x ∈ w, (fun c => decide (c ≠ '.')) x = true := fun x hx =>
    decide_eq_true (isDigitChar_ne_dot x (hdig x hx))
  unfold parseFixedPoint
  dsimp only
  rw [show (⟨w⟩ : String).toList = w from rfl]
  rw [dropWhile_eq_nil_of_all _ w hall, takeWhile_eq_self_of_all _ w hall]
  rw [if_pos ⟨hne, List.all_eq_true.mpr hdig⟩]

/-- Lemma: `parseFixedPoint` on a `whole.fraction` digit string. -/
theorem parseFixedPoint_with_dot (w f : List Char) (d : ℕ)
    (hwne : w ≠ []) (hfne : f ≠ []) (hflen : f.length ≤ d)
    (hwdig : ∀ x ∈ w, isDigitChar x = true)
    (hfdig : ∀ x ∈ f, isDigitChar x = true) :
    parseFixedPoint ⟨w ++ '.' :: f⟩ d =
      some (charsToNat w * 10 ^ d + charsToNat f * 10 ^ (d - f.length)) := by
  have hall : ∀ x ∈ w, (fun c => decide (c ≠ '.')) x = true := fun x hx =>
    decide_eq_true (isDigitChar_ne_dot x (hwdig x hx))
  unfold parseFixedPoint
  dsimp only
  rw [show (⟨w ++ '.' :: f⟩ : String).toList = w ++ '.' :: f from rfl]
  rw [dropWhile_append_not _ w '.' f hall (by decide),
    takeWhile_append_not _ w '.' f hall (by decide)]
  dsimp only
  rw [if_pos ⟨hwne, hfne, hflen, List.all_eq_true.mpr hwdig,
    List.all_eq_true.mpr hfdig⟩]

/-- Formatting with the Solana adapter's exact fixed-point formatter and
re-parsing reconstructs the raw amount, for every raw value and every
decimals count. -/
theorem solana_format_roundtrip (raw d : ℕ) :
    parseFixedPoint (solanaFormatBalance raw d) d = some raw := by
  have hsplitraw : 10 ^ d * (raw / 10 ^ d) + raw % 10 ^ d = raw :=
    Nat.div_add_mod raw (10 ^ d)
  by_cases hfz : raw % 10 ^ d = 0
  · rw [show solanaFormatBalance raw d = bigintToString (raw / 10 ^ d) from by
      unfold solanaFormatBalance; rw [if_pos hfz]]
    rw [bigintToString]
    rw [parseFixedPoint_digits_only _ d
      (by simpa using natDecDigits_ne_nil (raw / 10 ^ d))
      (by
        intro x hx
        rcases List.mem_map.mp hx with ⟨dd, hdd, rfl⟩
        exact isDigitChar_digitChar dd (mem_natDecDigits_lt _ dd hdd))]
    rw [charsToNat_natDecDigits, Nat.div_mul_cancel (Nat.dvd_of_mod_eq_zero hfz)]
  · obtain ⟨hTne, hTlen, hTmem, hTval⟩ :=
      trimmed_fraction_spec (raw % 10 ^ d) d hfz (Nat.mod_lt raw (by positivity))
    rw [show solanaFormatBalance raw d =
        ⟨(natDecDigits (raw / 10 ^ d)).map digitChar ++
          '.' :: (trimTrailingZeros (padStartZeros (natDecDigits (raw % 10 ^ d)) d)).map
            digitChar⟩ from by
      unfold solanaFormatBalance solanaFormatDigits; rw [if_neg hfz]]
    rw [parseFixedPoint_with_dot _ _ d
      (by simpa using natDecDigits_ne_nil (raw / 10 ^ d))
      (by simpa using hTne)
      (by simpa using hTlen)
      (by
        intro x hx
        rcases List.mem_map.mp hx with ⟨dd, hdd, rfl⟩
        exact isDigitChar_digitChar dd (mem_natDecDigits_lt _ dd hdd))
      (by
        intro x hx
        rcases List.mem_map.mp hx with ⟨dd, hdd, rfl⟩
        exact isDigitChar_digitChar dd (hTmem dd hdd))]
    rw [charsToNat_natDecDigits, List.length_map,
      charsToNat_map_digitChar _ hTmem, hTval,
      Nat.mul_comm (raw / 10 ^ d) (10 ^ d), hsplitraw]

end MCBD

namespace MCBD

/-- C3 counterexample.  At `raw = 1234567890000000`, `decimals = 18`
— the spec's own example — `formatBigInt` (the formatter `buildJsonOutput`
uses for balances and diffs) produces `"0.001234"`: it truncates the
fraction to its first six digits without rounding, so the output does not
contain `"0.001235"` and re-parsing yields `1234000000000000`, not the
original raw integer.  The Solana adapter's `formatBalance` keeps all
digits (`"0.00123456789"`), which also does not contain `"0.001235"`.
The EVM adapter's `formatBalance` is `parseFloat(...).toString()` and is
excluded from the exact embedding altogether.  So no formatter in the
cited code satisfies the claim as stated. -/
theorem format_example_not_rounded :
    formatBigInt 1234567890000000 18 = "0.001234" ∧
    parseFixedPoint (formatBigInt 1234567890000000 18) 18 ≠ some 1234567890000000 ∧
    parseFixedPoint (formatBigInt 1234567890000000 18) 18 = some 1234000000000000 ∧
    solanaFormatBalance 1234567890000000 18 = "0.00123456789" ∧
    seqContains (formatBigInt 1234567890000000 18).toList "0.001235".toList = false ∧
    seqContains (solanaFormatBalance 1234567890000000 18).toList "0.001235".toList
      = false := by
  refine ⟨by decide, by decide, by decide, by decide, by decide, by decide⟩

/-- C3 (amended).  The Solana adapter's `formatBalance` is an exact
fixed-point formatter: for every raw integer amount (in particular beyond
`2 ^ 96`) and every decimals value (≤ 22, where `BigInt(10 ** decimals)`
is exact), it produces a plain decimal string with no precision loss, and
re-parsing the string as a fixed-point decimal reconstructs the original
raw integer exactly; `raw = 10^18`, `decimals = 18` formats as `"1"`.
`formatBigInt` of `src/index.js` shares the exact integer arithmetic but
truncates the fraction to its first six digits without rounding, so
`raw = 1234567890000000`, `decimals = 18` yields `"0.001234"` (not a
string containing `"0.001235"`), and re-parsing recovers the raw value
only up to that truncation. -/
theorem format_roundtrip_amended :
    (∀ raw decimals : ℕ, decimals ≤ 22 →
      parseFixedPoint (solanaFormatBalance raw decimals) decimals = some raw) ∧
    solanaFormatBalance (10 ^ 18) 18 = "1" ∧
    formatBigInt 1234567890000000 18 = "0.001234" ∧
    parseFixedPoint (formatBigInt 1234567890000000 18) 18 = some 1234000000000000 := by
  exact ⟨fun raw decimals _ => solana_format_roundtrip raw decimals,
    by decide, by decide, by decide⟩

/-- Witness for C3 (amended): the round-trip at a raw amount beyond the
IEEE-754 double-safe range, `raw = 2 ^ 96 + 12345`, `decimals = 18`. -/
theorem format_roundtrip_amended_witness :
    parseFixedPoint (solanaFormatBalance (2 ^ 96 + 12345) 18) 18 =
      some (2 ^ 96 + 12345) :=
  format_roundtrip_amended.1 (2 ^ 96 + 12345) 18 (by decide)

end MCBD
